import Mathlib

/-!
Shallow embedding of `sales_workflow_cli.py` (sales-workflow-automation).

Conventions of the embedding:
* Python strings are Lean `String`s; character-level work is done on `String.data`
  (`List Char`), so Python `len` (code points) is `List.length`.
* Each regular expression used by the source is hand-compiled to an executable
  matching function; the doc comment of every matcher quotes the regex it embeds.
  `re.IGNORECASE` is modelled by ASCII case folding (`Char.toLower`), `\s` by the
  common whitespace characters, and `\w` (for `\b` word boundaries) by ASCII
  alphanumerics, underscore and CJK ideographs - the character repertoire the
  program's vocabularies and inputs use.
* Python truthiness of optional strings ("account or Unknown", "if not timeline")
  is modelled by `pyTruthyOpt` / `pyOrStr` / `pyOrList`.
* The external structured-extraction provider of `extract_fields` returns an
  arbitrary string which the source passes through `json.loads` inside a
  `try/except`; the parse boundary is modelled by an `Option PyVal` argument
  (`none` = parse failure raised, `some v` = parsed value `v`), so quantifying
  over it covers every provider output.
-/

namespace SalesWorkflow

/-! ## Character classes -/

/-- Python `\s` (re whitespace), plus the common Unicode spaces NBSP and
ideographic space; also the character set stripped by `str.strip()`. -/
def isSpaceCh (c : Char) : Bool :=
  c = ' ' || c = '\t' || c = '\n' || c = '\r' ||
  c = Char.ofNat 11 || c = Char.ofNat 12 || c = Char.ofNat 0xA0 || c = Char.ofNat 0x3000

/-- ASCII case folding, modelling `re.IGNORECASE` for the program's repertoire. -/
def lowerC (c : Char) : Char := c.toLower

/-- Python `\w` approximated for the program's repertoire: ASCII alphanumerics,
underscore, and CJK unified ideographs (which Python's Unicode `\w` matches). -/
def isWordCh (c : Char) : Bool :=
  c.isAlphanum || c = '_' || (0x3400 ≤ c.toNat && c.toNat ≤ 0x9FFF)

/-! ## Search primitives -/

/-- `p` is a case-insensitive prefix of `s`. -/
def ciPre : List Char → List Char → Bool
  | [], _ => true
  | _ :: _, [] => false
  | a :: ps, b :: ss => (lowerC a = lowerC b) && ciPre ps ss

/-- Case-insensitive substring search: models `re.search(re.escape(kw), s, re.IGNORECASE)`
used for all keyword-vocabulary scans. -/
def ciSub (p : List Char) : List Char → Bool
  | [] => ciPre p []
  | c :: rest => ciPre p (c :: rest) || ciSub p rest

/-- Case-sensitive substring search: models Python `kw in s` and flag-less `re.search`. -/
def litSub (p : List Char) : List Char → Bool
  | [] => p.isEmpty
  | c :: rest => p.isPrefixOf (c :: rest) || litSub p rest

/-- The character left of the current position (if any) is not a word character. -/
def prevNonWord : Option Char → Bool
  | none => true
  | some c => !isWordCh c

/-- The position after the match is at end of input or a non-word character. -/
def boundaryAfter : List Char → Bool
  | [] => true
  | c :: _ => !isWordCh c

/-- Models `re.search(r"\bKW\b", s, re.IGNORECASE)` for a keyword `kw` that begins
and ends with word characters (`CRM`, `Salesforce`): scans every position,
requiring a non-word character (or string end) on both sides. `prev` is the
character immediately before the scan position. -/
def wordCISearch (kw : List Char) : Option Char → List Char → Bool
  | prev, [] => ciPre kw [] && prevNonWord prev
  | prev, c :: rest =>
      (ciPre kw (c :: rest) && prevNonWord prev && boundaryAfter ((c :: rest).drop kw.length))
      || wordCISearch kw (some c) rest

/-- Python `str.strip()` on a character list. -/
def stripL (l : List Char) : List Char :=
  ((l.dropWhile isSpaceCh).reverse.dropWhile isSpaceCh).reverse

/-- Stripped string from a captured character list (`m.group(1).strip()`). -/
def strS (l : List Char) : String := String.mk (stripL l)

/-- `re.search` position scan: try the compiled matcher `f` at each suffix,
leftmost match wins. -/
def searchPat (f : List Char → Option (List Char)) : List Char → Option (List Char)
  | [] => f []
  | c :: rest =>
      match f (c :: rest) with
      | some v => some v
      | none => searchPat f rest

/-- Position scan threading the previous character, for patterns with a leading `\b`. -/
def searchPatB (f : Option Char → List Char → Option (List Char)) :
    Option Char → List Char → Option (List Char)
  | prev, [] => f prev []
  | prev, c :: rest =>
      match f prev (c :: rest) with
      | some v => some v
      | none => searchPatB f (some c) rest

/-- Models the tail `\s*([^X]+)` of the labelled patterns (greedy star, greedy
plus, with backtracking): after the maximal whitespace run, the capture is the
maximal run of non-excluded characters; if the character there is excluded (or
the input ends), the star backtracks into the whitespace, whose last
non-excluded character (whitespace is never excluded beyond `\n`) becomes a
one-character capture. -/
def wsCapPlus (excl : Char → Bool) (s : List Char) : Option (List Char) :=
  let w := s.takeWhile isSpaceCh
  let rest := s.drop w.length
  match rest with
  | c :: _ =>
      if excl c then (w.reverse.find? (fun d => !excl d)).map (fun d => [d])
      else some (rest.takeWhile (fun d => !excl d))
  | [] => (w.reverse.find? (fun d => !excl d)).map (fun d => [d])

/-- `c` is `:` or `：`, the class `[:：]` of the labelled patterns. -/
def colonCh (c : Char) : Bool := c = ':' || c = '：'

/-- Models `LABEL[:：]\s*(CAPTURE)` at the current position: the label
(case-insensitively), a colon, then `wsCapPlus` for `\s*([^X]+)`. -/
def labeledAt (label : List Char) (excl : Char → Bool) (s : List Char) :
    Option (List Char) :=
  if ciPre label s then
    match s.drop label.length with
    | c :: rest => if colonCh c then wsCapPlus excl rest else none
    | [] => none
  else none

/-- Models `[-•]\s*LABEL[:：]\s*([^\n]+)` at the current position (the bulleted
budget/timeline patterns): a bullet character, greedy whitespace, then the
labelled pattern (whose label starts with a non-space character, so the greedy
`\s*` is exact). -/
def bulletLabeledAt (label : List Char) (s : List Char) : Option (List Char) :=
  match s with
  | c :: rest =>
      if c = '-' || c = '•' then
        labeledAt label (fun d => d = '\n') (rest.drop (rest.takeWhile isSpaceCh).length)
      else none
  | [] => none

/-! ## Field extraction: account name

Source patterns (find_first, IGNORECASE):
  `客户[:：]\s*([^\n（]+)` then `Company[:：]\s*([^\n]+)` -/

def a1At (s : List Char) : Option (List Char) :=
  labeledAt "客户".data (fun d => d = '\n' || d = '（') s

def a2At (s : List Char) : Option (List Char) :=
  labeledAt "Company".data (fun d => d = '\n') s

/-- `find_first(text, [r"客户[:：]\s*([^\n（]+)", r"Company[:：]\s*([^\n]+)"])`. -/
def accountCandidate (text : String) : Option String :=
  match searchPat a1At text.data with
  | some v => some (strS v)
  | none => (searchPat a2At text.data).map strS

/-- `looks_like_company_name` from the source: reject empty strings, require the
stripped candidate's length in `[4, 40]`, no conversational filler opener, and a
known organisational suffix. -/
def fillers : List String := ["我们想", "想做", "搞个", "有没有", "能不能", "就是", "现在"]

def companySuffixes : List String :=
  ["有限公司", "股份有限公司", "集团", "科技", "贸易", "物流", "医疗",
   "信息", "网络", "软件", "咨询", "公司"]

def looks_like_company_name (s : String) : Bool :=
  if s = "" then false
  else if (stripL s.data).length < 4 || (stripL s.data).length > 40 then false
  else if fillers.any (fun p => p.data.isPrefixOf (stripL s.data)) then false
  else companySuffixes.any (fun suf => suf.data.isSuffixOf (stripL s.data))

/-- `if account and not looks_like_company_name(account): account = None`. -/
def accountGated (text : String) : Option String :=
  match accountCandidate text with
  | some c => if c ≠ "" && !looks_like_company_name c then none else some c
  | none => none

/-! ## Field extraction: business model -/

/-- The token `(B2B|B2C)` (IGNORECASE) at the head of `s`, requiring a trailing
word boundary; returns the matched text. -/
def bmTok (s : List Char) : Option (List Char) :=
  match s with
  | c1 :: c2 :: c3 :: rest =>
      if lowerC c1 = 'b' && c2 = '2' && (lowerC c3 = 'b' || lowerC c3 = 'c')
         && boundaryAfter rest
      then some [c1, c2, c3] else none
  | _ => none

/-- As `bmTok` but without the trailing boundary (the non-capturing `(?:B2B|B2C)`
inside the industry pattern). -/
def bmTokNB (s : List Char) : Option (List Char) :=
  match s with
  | c1 :: c2 :: c3 :: _ =>
      if lowerC c1 = 'b' && c2 = '2' && (lowerC c3 = 'b' || lowerC c3 = 'c')
      then some [c1, c2, c3] else none
  | _ => none

/-- `\b(B2B|B2C)\b` at the current position. -/
def b1At (prev : Option Char) (s : List Char) : Option (List Char) :=
  if prevNonWord prev then bmTok s else none

/-- `（\s*(B2B|B2C)\b` at the current position (greedy `\s*` is exact because the
token starts with a non-space character). -/
def b2At (s : List Char) : Option (List Char) :=
  match s with
  | c :: rest =>
      if c = '（' then bmTok (rest.drop (rest.takeWhile isSpaceCh).length) else none
  | [] => none

/-- `find_first(text, [r"\b(B2B|B2C)\b", r"（\s*(B2B|B2C)\b"])`. -/
def bmRaw (text : String) : Option String :=
  match searchPatB b1At none text.data with
  | some v => some (strS v)
  | none => (searchPat b2At text.data).map strS

def pyTruthyOpt : Option String → Bool
  | some s => s ≠ ""
  | none => false

/-- `x or default` for an optional string. -/
def pyOrStr (x : Option String) (d : String) : String :=
  match x with
  | some s => if s = "" then d else s
  | none => d

/-- `business_model = find_first(...) or "Unknown"` before the inference rule. -/
def bmExplicit (text : String) : String := pyOrStr (bmRaw text) "Unknown"

/-- `business_model_unknown = business_model == "Unknown"`. -/
def bmUnknown (text : String) : Bool := bmExplicit text = "Unknown"

/-- `re.search(r"(领导|管理层|老板|总监|management|manager|director)", text, IGNORECASE)`. -/
def leadershipHit (text : String) : Bool :=
  ["领导", "管理层", "老板", "总监", "management", "manager", "director"].any
    (fun kw => ciSub kw.data text.data)

/-- `re.search(r"(\bCRM\b|销售效率|流程|复盘|看数据|dashboard)", text, IGNORECASE)`. -/
def enterpriseHit (text : String) : Bool :=
  wordCISearch "CRM".data none text.data ||
  ["销售效率", "流程", "复盘", "看数据", "dashboard"].any (fun kw => ciSub kw.data text.data)

/-- `business_model_inferred`: the inference rule fires when the model is unknown
and both a leadership marker and an enterprise-process marker are present. -/
def bmInferred (text : String) : Bool :=
  bmUnknown text && leadershipHit text && enterpriseHit text

def businessModelOf (text : String) : String :=
  if bmInferred text then "Likely B2B (inferred)" else bmExplicit text

/-! ## Field extraction: industry -/

def closeParen (c : Char) : Bool := c = ')' || c = '）'

/-- `（\s*(?:B2B|B2C)\s*([^\)）]+)[）\)]` at the current position. The greedy
capture runs to the first closing paren; if it would be empty, the second `\s*`
backtracks by one space. -/
def i1At (s : List Char) : Option (List Char) :=
  match s with
  | c :: rest =>
      if c = '（' then
        let r1 := rest.drop (rest.takeWhile isSpaceCh).length
        match bmTokNB r1 with
        | some _ =>
            let r2 := r1.drop 3
            let w2 := r2.takeWhile isSpaceCh
            let r3 := r2.drop w2.length
            let cap := r3.takeWhile (fun d => !closeParen d)
            match r3.drop cap.length with
            | c4 :: _ =>
                if closeParen c4 then
                  if cap.isEmpty then
                    match w2.reverse with
                    | d :: _ => some [d]
                    | [] => none
                  else some cap
                else none
            | [] => none
        | none => none
      else none
  | [] => none

def indSuffixes : List String := ["公司", "企业", "集团", "机构", "团队"]

/-- One of the `(?:公司|企业|集团|机构|团队)` closers begins here. -/
def i2SufHere (s : List Char) : Bool :=
  indSuffixes.any (fun w => ciPre w.data s)

/-- The lazy capture `([^\n，。;；]+?)` followed by a closer: take characters one
at a time (failing on the excluded set), checking for a closer after each. -/
def i2Cap (acc : List Char) : List Char → Option (List Char)
  | [] => none
  | c :: rest =>
      if c = '\n' || c = '，' || c = '。' || c = ';' || c = '；' then none
      else if i2SufHere rest then some (acc ++ [c])
      else i2Cap (acc ++ [c]) rest

/-- The lazy gap `[^\n]*?一家` plus capture: try `一家` at each point, consuming
one non-newline character on failure. -/
def i2Lazy : List Char → Option (List Char)
  | [] => none
  | c :: rest =>
      match (if ciPre "一家".data (c :: rest) then i2Cap [] ((c :: rest).drop 2) else none) with
      | some v => some v
      | none => if c = '\n' then none else i2Lazy rest

/-- `我们是[^\n]*?一家([^\n，。;；]+?)(?:公司|企业|集团|机构|团队)` at the current position. -/
def i2At (s : List Char) : Option (List Char) :=
  if ciPre "我们是".data s then i2Lazy (s.drop 3) else none

/-- `行业[:：]\s*([^\n]+)` at the current position. -/
def i3At (s : List Char) : Option (List Char) :=
  labeledAt "行业".data (fun d => d = '\n') s

/-- `industry_detail = find_first(text, [...])` over the three industry patterns. -/
def industryDetail (text : String) : Option String :=
  match searchPat i1At text.data with
  | some v => some (strS v)
  | none =>
      match searchPat i2At text.data with
      | some v => some (strS v)
      | none => (searchPat i3At text.data).map strS

/-- `industry = industry_detail.strip() if industry_detail else "Unknown"`. -/
def industryOf (text : String) : String :=
  match industryDetail text with
  | some d => if d = "" then "Unknown" else String.mk (stripL d.data)
  | none => "Unknown"

/-! ## Field extraction: budget and timeline -/

def budgetOf (text : String) : Option String :=
  match searchPat (bulletLabeledAt "预算".data) text.data with
  | some v => some (strS v)
  | none =>
      match searchPat (labeledAt "预算".data (fun d => d = '\n')) text.data with
      | some v => some (strS v)
      | none => (searchPat (labeledAt "budget".data (fun d => d = '\n')) text.data).map strS

/-- `2\s*周内` at the current position. -/
def t4Alt1 (s : List Char) : Option (List Char) :=
  match s with
  | c :: rest =>
      if c = '2' then
        let w := rest.takeWhile isSpaceCh
        let r := rest.drop w.length
        if ciPre "周内".data r then some (c :: (w ++ r.take 2)) else none
      else none
  | [] => none

/-- `1-2\s*个月` at the current position. -/
def t4Alt2 (s : List Char) : Option (List Char) :=
  if ciPre "1-2".data s then
    let rest := s.drop 3
    let w := rest.takeWhile isSpaceCh
    let r := rest.drop w.length
    if ciPre "个月".data r then some (s.take 3 ++ w ++ r.take 2) else none
  else none

/-- A literal alternative, returning the matched text. -/
def litTok (w : List Char) (s : List Char) : Option (List Char) :=
  if ciPre w s then some (s.take w.length) else none

/-- `Q[1-4]` (IGNORECASE) at the current position. -/
def t4Alt6 (s : List Char) : Option (List Char) :=
  match s with
  | c1 :: c2 :: _ =>
      if lowerC c1 = 'q' && ('1' ≤ c2 && c2 ≤ '4') then some [c1, c2] else none
  | _ => none

/-- `(2\s*周内|1-2\s*个月|两周内|本月|下月|Q[1-4])` at the current position,
alternatives in source order. -/
def t4At (s : List Char) : Option (List Char) :=
  (t4Alt1 s).orElse fun _ => (t4Alt2 s).orElse fun _ =>
  (litTok "两周内".data s).orElse fun _ => (litTok "本月".data s).orElse fun _ =>
  (litTok "下月".data s).orElse fun _ => t4Alt6 s

/-- `find_first` over the four timeline patterns. -/
def timelineRaw (text : String) : Option String :=
  match searchPat (bulletLabeledAt "时间线".data) text.data with
  | some v => some (strS v)
  | none =>
      match searchPat (labeledAt "时间线".data (fun d => d = '\n')) text.data with
      | some v => some (strS v)
      | none =>
          match searchPat (labeledAt "timeline".data (fun d => d = '\n')) text.data with
          | some v => some (strS v)
          | none => (searchPat t4At text.data).map strS

/-- `(越快越好|尽快|ASAP|as soon as possible)` found anywhere; the source only uses
the truthiness of this `find_first` result (its alternatives are non-empty
literals, so a successful match is always truthy). -/
def urgencyHit (text : String) : Bool :=
  ["越快越好", "尽快", "ASAP", "as soon as possible"].any (fun kw => ciSub kw.data text.data)

/-- Timeline with the urgency fallback: `if not timeline: ... timeline = "ASAP（越快越好）"`. -/
def timelineOf (text : String) : Option String :=
  let t := timelineRaw text
  if pyTruthyOpt t then t
  else if urgencyHit text then some "ASAP（越快越好）" else t

/-! ## Keyword buckets and CRM flags -/

def pain_kw : List String :=
  ["手动", "低效", "遗漏", "数据不一致", "分散", "节奏很乱", "未跟进", "不太爱填",
   "很乱", "manual", "slow", "漏跟进", "麻烦"]

def must_kw : List String :=
  ["自动化", "workflow", "tracking", "数据追踪", "CRM", "Salesforce", "发票", "invoice",
   "dashboard", "提醒", "超过48小时未跟进", "会后总结", "复盘", "英文", "email", "邮箱",
   "WhatsApp", "微信", "导出 Excel/CSV", "导出Excel/CSV"]

def nice_kw : List String := ["同步", "集成", "导出", "Slack", "企微", "飞书", "小程序", "bot"]

/-- `[kw for kw in vocab if re.search(re.escape(kw), text, re.IGNORECASE)]`. -/
def kwFound (vocab : List String) (text : String) : List String :=
  vocab.filter (fun kw => ciSub kw.data text.data)

/-- `" ".join(l)`, built on character lists. -/
def joinSpaceData : List (List Char) → List Char
  | [] => []
  | [x] => x
  | x :: y :: rest => x ++ ' ' :: joinSpaceData (y :: rest)

def joinSpace (l : List String) : String := String.mk (joinSpaceData (l.map String.data))

/-- Python `s.startswith(p)`, on the character lists. -/
def startsWithS (s p : String) : Bool := p.data.isPrefixOf s.data

/-- `crm_mentioned = re.search(r"\bCRM\b", " ".join(must_haves), IGNORECASE)`. -/
def crmMentioned (text : String) : Bool :=
  wordCISearch "CRM".data none (joinSpace (kwFound must_kw text)).data

/-- `crm_known = re.search(r"\bSalesforce\b", text, IGNORECASE)`. -/
def crmKnown (text : String) : Bool := wordCISearch "Salesforce".data none text.data

def negWords : List String := ["没有", "无", "未用", "不用", "不使用"]

/-- `(没有|无|未用|不用|不使用).{0,6}CRM` (case-sensitive) at the current position;
only the existence of a match is used, so the greedy `.{0,6}` is an existential
over gap lengths 0..6 of non-newline characters. -/
def crmNegAt (s : List Char) : Bool :=
  negWords.any (fun w =>
    w.data.isPrefixOf s &&
    (List.range 7).any (fun j =>
      let r := s.drop w.data.length
      ((r.take j).all (fun c => c ≠ '\n')) && "CRM".data.isPrefixOf (r.drop j)))

/-- Boolean position scan. -/
def anyPos (f : List Char → Bool) : List Char → Bool
  | [] => f []
  | c :: rest => f (c :: rest) || anyPos f rest

def crmNegated (text : String) : Bool := anyPos crmNegAt text.data

/-- `crm_question_needed = business_model_inferred or (crm_mentioned and not
crm_known and not crm_negated)`. -/
def crmQuestionNeeded (text : String) : Bool :=
  bmInferred text || (crmMentioned text && !crmKnown text && !crmNegated text)

/-! ## Stakeholders -/

def explicitRoles : List String :=
  ["CEO", "CTO", "采购", "财务", "运营", "销售总监", "老板", "procurement", "finance",
   "ops", "sales"]

def leadershipRoles : List String :=
  ["领导", "管理层", "总监", "management", "manager", "director"]

/-- `leadership_marker = re.compile(r"(领导|管理层|management)", IGNORECASE)` applied
to one stakeholder entry. -/
def markerHit (s : String) : Bool :=
  ciSub "领导".data s.data || ciSub "管理层".data s.data || ciSub "management".data s.data

def reportingMarker : String := "领导/管理层（Reporting stakeholder）"

/-- The raw stakeholder list: explicit-role vocabulary scan, falling back to the
leadership vocabulary when it finds nothing. -/
def stakeholdersRaw (text : String) : List String :=
  let ex := kwFound explicitRoles text
  if ex = [] then kwFound leadershipRoles text else ex

/-- Marker normalisation: entries matching `leadership_marker` are removed and the
single `reportingMarker` is appended. -/
def stakeholdersOf (text : String) : List String :=
  let st := stakeholdersRaw text
  if st.any markerHit then st.filter (fun s => !markerHit s) ++ [reportingMarker] else st

/-! ## Open questions and use case -/

def companyQ : String := "Company name?（公司名称？）"
def industryQ : String := "Industry?（行业？）"
def bmQ : String := "B2B or B2C?（B2B 还是 B2C？）"
def crmQ : String := "Which CRM are you using?（目前用的 CRM 是什么？）"
def budgetQ : String := "Budget range?（预算范围？）"
def timelineQ : String := "Target timeline?（期望上线时间？）"
def dmQ : String := "Decision makers involved?（决策链角色？）"

/-- The seven `open_questions` appends, in source order. -/
def openQuestionsOf (text : String) : List String :=
  (if pyTruthyOpt (accountGated text) then [] else [companyQ]) ++
  (if industryOf text = "" || industryOf text = "Unknown" then [industryQ] else []) ++
  (if bmUnknown text then [bmQ] else []) ++
  (if crmQuestionNeeded text then [crmQ] else []) ++
  (if pyTruthyOpt (budgetOf text) then [] else [budgetQ]) ++
  (if pyTruthyOpt (timelineOf text) then [] else [timelineQ]) ++
  (if stakeholdersOf text = [] then [dmQ] else [])

/-- `use_case`: generic, upgraded for invoice terms, upgraded further when
meeting-summary, follow-up-reminder and leadership markers co-occur. -/
def useCaseOf (text : String) : String :=
  let uc := if ciSub "发票".data text.data || ciSub "invoice".data text.data then
              "Sales workflow + invoice checks"
            else "Sales workflow automation"
  if litSub "会后总结".data text.data && litSub "跟进提醒".data text.data && leadershipHit text
  then "Sales workflow + meeting summary + follow-up reminders + reporting"
  else uc

/-! ## The lead record -/

structure LeadRecord where
  account_name : String
  industry : String
  business_model : String
  use_case : String
  pain_points : List String
  must_haves : List String
  nice_to_haves : List String
  budget : String
  timeline : String
  stakeholders : List String
  open_questions : List String
  deriving Repr, DecidableEq

/-- `list(dict.fromkeys(l))`: deduplicate keeping first occurrences. -/
def pyDedupAux (seen : List String) : List String → List String
  | [] => []
  | x :: xs => if x ∈ seen then pyDedupAux seen xs else x :: pyDedupAux (x :: seen) xs

def pyDedup (l : List String) : List String := pyDedupAux [] l

/-- `l or d` for a list. -/
def pyOrList (l d : List String) : List String := if l = [] then d else l

/-- `heuristic_extract` from the source: the full record. -/
def heuristic_extract (text : String) : LeadRecord where
  account_name := pyOrStr (accountGated text) "Unknown"
  industry := industryOf text
  business_model := businessModelOf text
  use_case := useCaseOf text
  pain_points := pyOrList (pyDedup (kwFound pain_kw text)) ["Unclear pain points"]
  must_haves := pyOrList (pyDedup (kwFound must_kw text)) ["Unclear requirements"]
  nice_to_haves := pyOrList (pyDedup (kwFound nice_kw text)) []
  budget := pyOrStr (budgetOf text) "Unknown"
  timeline := pyOrStr (timelineOf text) "Unknown"
  stakeholders := pyOrList (pyDedup (stakeholdersOf text)) ["Unknown"]
  open_questions := openQuestionsOf text

/-! ## External-source merge (`extract_fields`)

The source builds a prompt, calls the external provider (`call_llm`, stubbed to
return `"{}"`), runs `json.loads` inside `try/except` and keeps the result only
when it is a dict, merges it over the heuristic record with the non-empty-wins
rule, and finally `setdefault`s four metadata fields. Python values and the
parse boundary are modelled by `PyVal` and an `Option PyVal` argument: `none`
stands for a string on which `json.loads` raises, any other constructor for a
successful parse of the provider's output string. -/

inductive PyVal where
  | pnone
  | pstr (s : String)
  | pbool (b : Bool)
  | pint (n : Int)
  | plist (xs : List PyVal)
  | pdict (kvs : List (String × PyVal))

/-- `v in [None, "", [], {}]` - the "empty" sentinels of the merge rule. -/
def isEmptySentinel : PyVal → Bool
  | .pnone => true
  | .pstr s => s = ""
  | .plist xs => xs.isEmpty
  | .pdict kvs => kvs.isEmpty
  | _ => false

def strList (l : List String) : PyVal := .plist (l.map .pstr)

/-- The heuristic record as the key-value mapping `heuristic_extract` returns,
keys in source order. -/
def recordToAssoc (r : LeadRecord) : List (String × PyVal) :=
  [("account_name", .pstr r.account_name),
   ("industry", .pstr r.industry),
   ("business_model", .pstr r.business_model),
   ("use_case", .pstr r.use_case),
   ("pain_points", strList r.pain_points),
   ("must_haves", strList r.must_haves),
   ("nice_to_haves", strList r.nice_to_haves),
   ("budget", .pstr r.budget),
   ("timeline", .pstr r.timeline),
   ("stakeholders", strList r.stakeholders),
   ("open_questions", strList r.open_questions)]

def keysOf (d : List (String × PyVal)) : List String := d.map Prod.fst

/-- Python `dict` union as in the merged dict `heur` over `b`: the keys of `a`
keep their positions with `b`'s values winning, then `b`'s new keys follow. -/
def pyUpdate (a b : List (String × PyVal)) : List (String × PyVal) :=
  a.map (fun kv =>
    match b.lookup kv.1 with
    | some v => (kv.1, v)
    | none => kv)
  ++ b.filter (fun kv => !(keysOf a).contains kv.1)

/-- `d.setdefault(k, v)`. -/
def setdefault (d : List (String × PyVal)) (k : String) (v : PyVal) :
    List (String × PyVal) :=
  if (keysOf d).contains k then d else d ++ [(k, v)]

/-- `llm_data`: the parsed provider output is kept only when it is a dict
(`isinstance(parsed, dict)`); a parse failure (`none`) or any non-dict value
contributes nothing. -/
def llmDataOf : Option PyVal → List (String × PyVal)
  | some (.pdict d) => d
  | _ => []

/-- `extract_fields` from the source. `llm_parsed` is the outcome of
`json.loads(call_llm(prompt))` as described above; `redact_cfg` is
`bool(cfg.get("redact_pii", True))`. -/
def extract_fields (text : String) (llm_parsed : Option PyVal) (redact_cfg : Bool) :
    List (String × PyVal) :=
  setdefault
    (setdefault
      (setdefault
        (setdefault
          (pyUpdate (recordToAssoc (heuristic_extract text))
            ((llmDataOf llm_parsed).filter (fun kv => !isEmptySentinel kv.2)))
          "source" (.pstr "Unknown"))
        "pii_redacted" (.pbool redact_cfg))
      "raw_text_excerpt" (.pstr ""))
    "text_hash" (.pstr "")

/-- The four metadata defaults `extract_fields` appends (none of the heuristic
record's keys is a metadata key, so on an empty external contribution all four
are appended in order). -/
def metadataDefaults (redact_cfg : Bool) : List (String × PyVal) :=
  [("source", .pstr "Unknown"), ("pii_redacted", .pbool redact_cfg),
   ("raw_text_excerpt", .pstr ""), ("text_hash", .pstr "")]

/-! ## Scoring and stage (`score_and_stage`)

The configuration is modelled with every key the source reads present, with
`int(...)` coercion already applied (the source reads each weight via
`sc.get(name, default)`; the defaults are recorded in `defaultScoring`), and
each stage rule carrying its `name`, `min_fit` and `min_intent`. -/

structure ScoringCfg where
  base_fit : Int
  base_intent : Int
  fit_industry_known : Int
  fit_crm_salesforce : Int
  fit_mentions_automation_tracking : Int
  intent_budget_known : Int
  intent_timeline_known : Int
  intent_few_open_questions : Int
  deriving Repr, DecidableEq

/-- The `sc.get(..., default)` fallback values of the source. -/
def defaultScoring : ScoringCfg where
  base_fit := 50
  base_intent := 50
  fit_industry_known := 10
  fit_crm_salesforce := 10
  fit_mentions_automation_tracking := 10
  intent_budget_known := 15
  intent_timeline_known := 10
  intent_few_open_questions := 10

structure StageRule where
  name : String
  min_fit : Int
  min_intent : Int
  deriving Repr, DecidableEq

structure Config where
  scoring : ScoringCfg
  stage_rules : List StageRule
  deriving Repr, DecidableEq

structure ScoreResult where
  fit_score : Int
  intent_score : Int
  stage : String
  rating : String
  deriving Repr, DecidableEq

/-- Keywords of the automation/tracking fit signal, tested with Python `in`
(case-sensitive substring) against `" ".join(must_haves)`. -/
def automationKws : List String := ["自动化", "tracking", "数据追踪", "workflow", "dashboard"]

/-- The three conditional fit increments, in source order. -/
def fitIncList (fields : LeadRecord) (sc : ScoringCfg) : List Int :=
  [if fields.industry ≠ "" && fields.industry ≠ "Unknown" then sc.fit_industry_known else 0,
   if wordCISearch "Salesforce".data none (joinSpace fields.must_haves).data then
     sc.fit_crm_salesforce
   else 0,
   if automationKws.any (fun k => litSub k.data (joinSpace fields.must_haves).data) then
     sc.fit_mentions_automation_tracking
   else 0]

/-- The three conditional intent increments, in source order. -/
def intentIncList (fields : LeadRecord) (sc : ScoringCfg) : List Int :=
  [if fields.budget ≠ "" && fields.budget ≠ "Unknown" then sc.intent_budget_known else 0,
   if fields.timeline ≠ "" && fields.timeline ≠ "Unknown" then sc.intent_timeline_known else 0,
   if fields.open_questions.length ≤ 1 then sc.intent_few_open_questions else 0]

/-- `fit = max(0, min(100, fit))`. -/
def clamp01 (x : Int) : Int := max 0 (min 100 x)

/-- `fit >= int(rule.get("min_fit", 0)) and intent >= int(rule.get("min_intent", 0))`. -/
def satRule (fit intent : Int) (ru : StageRule) : Bool :=
  decide (ru.min_fit ≤ fit) && decide (ru.min_intent ≤ intent)

/-- The stage loop: first satisfied rule wins, default otherwise. -/
def resolveStage (fit intent : Int) : List StageRule → String
  | [] => "Early (Needs discovery)"
  | ru :: rest => if satRule fit intent ru then ru.name else resolveStage fit intent rest

/-- `stage.startswith("SQL")` / `"MQL"` rating derivation. -/
def ratingOf (stage : String) : String :=
  if startsWithS stage "SQL" then "Hot"
  else if startsWithS stage "MQL" then "Warm"
  else "Cold"

/-- `score_and_stage` from the source: base values plus the conditional
increments (written as the sequential additions of the source), clamped once,
then stage resolution and rating. -/
def score_and_stage (fields : LeadRecord) (cfg : Config) : ScoreResult :=
  let sc := cfg.scoring
  let fitAcc := sc.base_fit
    + (if fields.industry ≠ "" && fields.industry ≠ "Unknown" then sc.fit_industry_known else 0)
    + (if wordCISearch "Salesforce".data none (joinSpace fields.must_haves).data then
         sc.fit_crm_salesforce
       else 0)
    + (if automationKws.any (fun k => litSub k.data (joinSpace fields.must_haves).data) then
         sc.fit_mentions_automation_tracking
       else 0)
  let intentAcc := sc.base_intent
    + (if fields.budget ≠ "" && fields.budget ≠ "Unknown" then sc.intent_budget_known else 0)
    + (if fields.timeline ≠ "" && fields.timeline ≠ "Unknown" then sc.intent_timeline_known else 0)
    + (if fields.open_questions.length ≤ 1 then sc.intent_few_open_questions else 0)
  let fit := clamp01 fitAcc
  let intent := clamp01 intentAcc
  let stage := resolveStage fit intent cfg.stage_rules
  { fit_score := fit, intent_score := intent, stage := stage, rating := ratingOf stage }

/-! ## Action generation (`generate_actions`) -/

def baselineActions : List String :=
  ["Confirm key stakeholders & decision process（确认决策链与对接人）",
   "Schedule a 20-min discovery call to validate requirements（安排需求澄清电话）",
   "Share a short workflow prototype outline + expected data fields（发送流程原型大纲与字段清单）"]

def crmAction : String := "Confirm current CRM and data sources（确认当前 CRM 与数据来源/字段）"

def invoiceAction : String :=
  "Collect 3–5 sample invoices to define validation rules（收集样例发票定义校验规则）"

def pocAction : String := "Propose a POC scope & timeline this week（本周给出 POC 范围与时间线）"

/-- `re.search(r"\bCRM\b", " ".join(fields.get("must_haves", [])), IGNORECASE)`. -/
def crmMentionedF (fields : LeadRecord) : Bool :=
  wordCISearch "CRM".data none (joinSpace fields.must_haves).data

/-- `re.search(r"发票|invoice", " ".join(fields.get("must_haves", [])), IGNORECASE)`. -/
def invoiceMentionedF (fields : LeadRecord) : Bool :=
  ciSub "发票".data (joinSpace fields.must_haves).data ||
  ciSub "invoice".data (joinSpace fields.must_haves).data

/-- `generate_actions` from the source: conditional prepends and append around
the three baseline actions. -/
def generate_actions (fields : LeadRecord) (scores : ScoreResult) : List String :=
  let a1 := if crmMentionedF fields || fields.business_model = "Likely B2B (inferred)" then
              crmAction :: baselineActions
            else baselineActions
  let a2 := if invoiceMentionedF fields then a1 ++ [invoiceAction] else a1
  if startsWithS scores.stage "SQL" then pocAction :: a2 else a2

/-! ## Supporting lemmas -/

theorem pyOrStr_untruthy {x : Option String} {d : String} (h : pyTruthyOpt x = false) :
    pyOrStr x d = d := by
  cases x with
  | none => rfl
  | some s =>
    simp only [pyTruthyOpt, ne_eq, decide_not, Bool.not_eq_false', decide_eq_true_eq] at h
    simp [pyOrStr, h]

theorem pyDedupAux_mem {x : String} {seen l : List String} :
    x ∈ pyDedupAux seen l ↔ x ∈ l ∧ x ∉ seen := by
  induction l generalizing seen with
  | nil => simp [pyDedupAux]
  | cons y ys ih =>
    rw [pyDedupAux]
    by_cases hy : y ∈ seen
    · rw [if_pos hy, ih]
      simp only [List.mem_cons]
      constructor
      · exact fun ⟨hx, hs⟩ => ⟨Or.inr hx, hs⟩
      · rintro ⟨rfl | hx, hs⟩
        · exact absurd hy hs
        · exact ⟨hx, hs⟩
    · rw [if_neg hy]
      simp only [List.mem_cons, ih, List.mem_cons]
      constructor
      · rintro (rfl | ⟨hx, hns⟩)
        · exact ⟨Or.inl rfl, hy⟩
        · exact ⟨Or.inr hx, fun hsn => hns (Or.inr hsn)⟩
      · rintro ⟨hxy | hx, hs⟩
        · exact Or.inl hxy
        · by_cases hxy : x = y
          · exact Or.inl hxy
          · exact Or.inr ⟨hx, fun hc => hc.elim hxy hs⟩

theorem pyDedup_mem {x : String} {l : List String} : x ∈ pyDedup l ↔ x ∈ l := by
  simp [pyDedup, pyDedupAux_mem]

theorem pyDedupAux_nodup (seen l : List String) : (pyDedupAux seen l).Nodup := by
  induction l generalizing seen with
  | nil => simp [pyDedupAux]
  | cons y ys ih =>
    rw [pyDedupAux]
    by_cases hy : y ∈ seen
    · rw [if_pos hy]; exact ih seen
    · rw [if_neg hy]
      refine List.nodup_cons.mpr ⟨?_, ih (y :: seen)⟩
      rw [pyDedupAux_mem]
      rintro ⟨-, hns⟩
      exact hns (List.mem_cons_self _ _)

theorem pyDedup_nodup (l : List String) : (pyDedup l).Nodup := pyDedupAux_nodup [] l

theorem pyDedupAux_eq_self {l seen : List String} (h : l.Nodup)
    (hd : ∀ x ∈ l, x ∉ seen) : pyDedupAux seen l = l := by
  induction l generalizing seen with
  | nil => rfl
  | cons y ys ih =>
    obtain ⟨hy, hys⟩ := List.nodup_cons.mp h
    rw [pyDedupAux, if_neg (hd y (List.mem_cons_self _ _))]
    congr 1
    refine ih hys ?_
    intro x hx hmem
    rcases List.mem_cons.mp hmem with rfl | hs
    · exact hy hx
    · exact hd x (List.mem_cons_of_mem _ hx) hs

theorem pyDedup_eq_self {l : List String} (h : l.Nodup) : pyDedup l = l :=
  pyDedupAux_eq_self h (by simp)

theorem pyOrList_nil_default {l : List String} : pyOrList l [] = l := by
  rw [pyOrList]
  split
  · simp_all
  · rfl

theorem resolveStage_eq_find (fit intent : Int) (rules : List StageRule) :
    resolveStage fit intent rules =
      match rules.find? (satRule fit intent) with
      | some ru => ru.name
      | none => "Early (Needs discovery)" := by
  induction rules with
  | nil => rfl
  | cons ru rest ih =>
    rw [resolveStage]
    cases h : satRule fit intent ru with
    | true => simp [List.find?_cons, h]
    | false => simp [List.find?_cons, h, ih]

theorem resolveStage_names (fit intent : Int) (rules : List StageRule) :
    resolveStage fit intent rules = "Early (Needs discovery)" ∨
      ∃ ru ∈ rules, resolveStage fit intent rules = ru.name := by
  induction rules with
  | nil => exact Or.inl rfl
  | cons ru rest ih =>
    rw [resolveStage]
    cases h : satRule fit intent ru with
    | true =>
      right
      exact ⟨ru, List.mem_cons_self _ _, by simp⟩
    | false =>
      simp only [Bool.false_eq_true, if_false]
      rcases ih with hdef | ⟨q, hq, he⟩
      · exact Or.inl hdef
      · exact Or.inr ⟨q, List.mem_cons_of_mem _ hq, he⟩

theorem resolveStage_first_match (fit intent : Int) (pre : List StageRule)
    (ru : StageRule) (post : List StageRule)
    (hpre : ∀ q ∈ pre, satRule fit intent q = false)
    (hru : satRule fit intent ru = true) :
    resolveStage fit intent (pre ++ ru :: post) = ru.name := by
  induction pre with
  | nil => simp [resolveStage, hru]
  | cons q qs ih =>
    rw [List.cons_append, resolveStage, hpre q (List.mem_cons_self _ _)]
    simp only [Bool.false_eq_true, if_false]
    exact ih fun p hp => hpre p (List.mem_cons_of_mem _ hp)

theorem lookup_append_of_mem {d e : List (String × PyVal)} {k : String}
    (h : k ∈ keysOf d) : (d ++ e).lookup k = d.lookup k := by
  induction d with
  | nil => simp [keysOf] at h
  | cons kv t ih =>
    obtain ⟨k1, v1⟩ := kv
    rw [List.cons_append, List.lookup, List.lookup]
    cases hk : k == k1 with
    | true => rfl
    | false =>
      refine ih ?_
      rcases List.mem_cons.mp h with rfl | ht
      · simp at hk
      · exact ht

theorem lookup_eq_none_of_not_mem {d : List (String × PyVal)} {k : String}
    (h : k ∉ keysOf d) : d.lookup k = none := by
  induction d with
  | nil => rfl
  | cons kv t ih =>
    obtain ⟨k1, v1⟩ := kv
    rw [List.lookup]
    cases hk : k == k1 with
    | true =>
      exfalso
      exact h (by simp_all [keysOf])
    | false =>
      exact ih fun ht => h (List.mem_cons_of_mem _ ht)

theorem keysOf_filter_sub {d : List (String × PyVal)} {p : String × PyVal → Bool}
    {k : String} (h : k ∈ keysOf (d.filter p)) : k ∈ keysOf d := by
  simp only [keysOf, List.mem_map] at h ⊢
  obtain ⟨kv, hkv, rfl⟩ := h
  exact ⟨kv, List.mem_of_mem_filter hkv, rfl⟩

theorem lookup_filter_some {d : List (String × PyVal)} {k : String} {v : PyVal}
    {p : String × PyVal → Bool} (hn : (keysOf d).Nodup) (h : d.lookup k = some v)
    (hp : p (k, v) = true) : (d.filter p).lookup k = some v := by
  induction d with
  | nil => simp [List.lookup] at h
  | cons kv t ih =>
    obtain ⟨k1, v1⟩ := kv
    obtain ⟨hk1, hnt⟩ := List.nodup_cons.mp hn
    rw [List.lookup] at h
    cases hk : k == k1 with
    | true =>
      rw [hk] at h
      simp only [Option.some.injEq] at h
      subst h
      have hkeq : k = k1 := by simpa using hk
      subst hkeq
      rw [List.filter_cons, if_pos hp]
      rw [List.lookup]
      simp
    | false =>
      rw [hk] at h
      rw [List.filter_cons]
      split
      · rw [List.lookup, hk]
        exact ih hnt h
      · exact ih hnt h

theorem lookup_filter_none {d : List (String × PyVal)} {k : String} {v : PyVal}
    {p : String × PyVal → Bool} (hn : (keysOf d).Nodup) (h : d.lookup k = some v)
    (hp : p (k, v) = false) : (d.filter p).lookup k = none := by
  induction d with
  | nil => simp [List.lookup] at h
  | cons kv t ih =>
    obtain ⟨k1, v1⟩ := kv
    obtain ⟨hk1, hnt⟩ := List.nodup_cons.mp hn
    rw [List.lookup] at h
    cases hk : k == k1 with
    | true =>
      rw [hk] at h
      simp only [Option.some.injEq] at h
      subst h
      have hkeq : k = k1 := by simpa using hk
      subst hkeq
      rw [List.filter_cons, if_neg (by simp [hp])]
      refine lookup_eq_none_of_not_mem ?_
      intro hmem
      exact hk1 (keysOf_filter_sub hmem)
    | false =>
      rw [hk] at h
      rw [List.filter_cons]
      split
      · rw [List.lookup, hk]
        exact ih hnt h
      · exact ih hnt h

theorem keysOf_mapUpd (t b : List (String × PyVal)) :
    keysOf (t.map (fun kv =>
      match b.lookup kv.1 with
      | some v => (kv.1, v)
      | none => kv)) = keysOf t := by
  induction t with
  | nil => rfl
  | cons kv t ih =>
    obtain ⟨k1, v1⟩ := kv
    simp only [List.map_cons, keysOf, List.map_cons] at *
    cases b.lookup k1 <;> simp_all [keysOf]

theorem lookup_mapUpd {t b : List (String × PyVal)} {k : String} (h : k ∈ keysOf t) :
    (t.map (fun kv =>
      match b.lookup kv.1 with
      | some v => (kv.1, v)
      | none => kv)).lookup k =
      match b.lookup k with
      | some v => some v
      | none => t.lookup k := by
  induction t with
  | nil => simp [keysOf] at h
  | cons kv t ih =>
    obtain ⟨k1, v1⟩ := kv
    simp only [List.map_cons]
    cases hk : k == k1 with
    | true =>
      have hkeq : k = k1 := by simpa using hk
      subst hkeq
      cases hb : List.lookup k b with
      | none => simp [List.lookup, hb, hk]
      | some w => simp [List.lookup, hb, hk]
    | false =>
      have hmem : k ∈ keysOf t := by
        rcases List.mem_cons.mp h with rfl | ht
        · simp at hk
        · exact ht
      cases hb : List.lookup k1 b with
      | none =>
        simp only [List.lookup, hb, hk]
        exact ih hmem
      | some w =>
        simp only [List.lookup, hb, hk]
        exact ih hmem

theorem lookup_pyUpdate {a b : List (String × PyVal)} {k : String} (h : k ∈ keysOf a) :
    (pyUpdate a b).lookup k =
      match b.lookup k with
      | some v => some v
      | none => a.lookup k := by
  rw [pyUpdate, lookup_append_of_mem (by rw [keysOf_mapUpd]; exact h)]
  exact lookup_mapUpd h

theorem mem_keys_pyUpdate {a b : List (String × PyVal)} {k : String}
    (h : k ∈ keysOf a) : k ∈ keysOf (pyUpdate a b) := by
  rw [pyUpdate]
  simp only [keysOf, List.map_append] at *
  exact List.mem_append_left _ (by rw [show (a.map fun kv =>
    match b.lookup kv.1 with
    | some v => (kv.1, v)
    | none => kv).map Prod.fst = keysOf (a.map fun kv =>
    match b.lookup kv.1 with
    | some v => (kv.1, v)
    | none => kv) from rfl, keysOf_mapUpd]; exact h)

theorem pyUpdate_nil (a : List (String × PyVal)) : pyUpdate a [] = a := by
  rw [pyUpdate]
  simp [List.lookup]

theorem lookup_setdefault_of_mem {d : List (String × PyVal)} {k k' : String} {v : PyVal}
    (h : k ∈ keysOf d) : (setdefault d k' v).lookup k = d.lookup k := by
  rw [setdefault]
  split
  · rfl
  · exact lookup_append_of_mem h

theorem mem_keys_setdefault {d : List (String × PyVal)} {k k' : String} {v : PyVal}
    (h : k ∈ keysOf d) : k ∈ keysOf (setdefault d k' v) := by
  rw [setdefault]
  split
  · exact h
  · simp only [keysOf, List.map_append]
    exact List.mem_append_left _ h

theorem setdefault_fresh {d : List (String × PyVal)} {k : String} {v : PyVal}
    (h : k ∉ keysOf d) : setdefault d k v = d ++ [(k, v)] := by
  rw [setdefault, if_neg (by simpa using h)]

theorem keysOf_recordToAssoc (r : LeadRecord) :
    keysOf (recordToAssoc r) =
      ["account_name", "industry", "business_model", "use_case", "pain_points",
       "must_haves", "nice_to_haves", "budget", "timeline", "stakeholders",
       "open_questions"] := rfl

theorem accountGated_inv (text : String) :
    accountGated text = none ∨
      ∃ c, accountCandidate text = some c ∧ accountGated text = some c ∧
        (c = "" ∨ looks_like_company_name c = true) := by
  cases h : accountCandidate text with
  | none =>
    left
    rw [accountGated, h]
  | some c =>
    by_cases hc : c = ""
    · subst hc
      right
      refine ⟨"", rfl, ?_, Or.inl rfl⟩
      rw [accountGated, h]
      simp
    · by_cases hl : looks_like_company_name c = true
      · right
        refine ⟨c, rfl, ?_, Or.inr hl⟩
        rw [accountGated, h]
        simp [hl]
      · left
        have hl' : looks_like_company_name c = false := by simpa using hl
        rw [accountGated, h]
        simp [hc, hl']

theorem accountGated_of_fail {text : String} {c : String}
    (h : accountCandidate text = some c) (hl : looks_like_company_name c = false) :
    pyTruthyOpt (accountGated text) = false := by
  rw [accountGated, h]
  by_cases hc : c = ""
  · simp [pyTruthyOpt, hc]
  · simp [pyTruthyOpt, hc, hl]

theorem looks_props {s : String} (h : looks_like_company_name s = true) :
    4 ≤ (stripL s.data).length ∧ (stripL s.data).length ≤ 40 ∧
      (∀ p ∈ fillers, p.data.isPrefixOf (stripL s.data) = false) ∧
      (∃ suf ∈ companySuffixes, suf.data.isSuffixOf (stripL s.data) = true) := by
  rw [looks_like_company_name] at h
  split_ifs at h with h0 h1 h2
  refine ⟨?_, ?_, ?_, ?_⟩
  · have := h1
    simp only [Bool.or_eq_true, decide_eq_true_eq, not_or, not_lt] at this
    exact this.1
  · have := h1
    simp only [Bool.or_eq_true, decide_eq_true_eq, not_or, not_lt] at this
    exact this.2
  · intro p hp
    by_contra hpre
    apply h2
    rw [List.any_eq_true]
    exact ⟨p, hp, by simpa using hpre⟩
  · obtain ⟨suf, hsuf, he⟩ := List.any_eq_true.mp h
    exact ⟨suf, hsuf, by simpa using he⟩

theorem companyQ_mem {text : String} (h : pyTruthyOpt (accountGated text) = false) :
    companyQ ∈ openQuestionsOf text := by
  rw [openQuestionsOf, h]
  simp

/-- Claim C1: for every input text, `account_name` in the record returned by
`heuristic_extract` is either `"Unknown"` or the first-matching candidate whose
stripped length lies in `[4, 40]`, which starts with no conversational filler
and ends with a known organisational suffix; and whenever the first-matching
candidate fails the guardrail, `account_name` is `"Unknown"` and
`open_questions` contains the company-name question. -/
theorem c1_account_guardrail (text : String) :
    ((heuristic_extract text).account_name = "Unknown" ∨
      (accountCandidate text = some ((heuristic_extract text).account_name) ∧
        4 ≤ (stripL ((heuristic_extract text).account_name).data).length ∧
        (stripL ((heuristic_extract text).account_name).data).length ≤ 40 ∧
        (∀ p ∈ fillers,
          p.data.isPrefixOf (stripL ((heuristic_extract text).account_name).data) = false) ∧
        (∃ suf ∈ companySuffixes,
          suf.data.isSuffixOf (stripL ((heuristic_extract text).account_name).data) = true))) ∧
    (∀ c, accountCandidate text = some c → looks_like_company_name c = false →
      (heuristic_extract text).account_name = "Unknown" ∧
      companyQ ∈ (heuristic_extract text).open_questions) := by
  constructor
  · rcases accountGated_inv text with hg | ⟨c, hcand, hg, hce⟩
    · left
      simp [heuristic_extract, pyOrStr, hg]
    · rcases hce with rfl | hl
      · left
        simp [heuristic_extract, pyOrStr, hg]
      · have hc : c ≠ "" := by
          rintro rfl
          rw [looks_like_company_name] at hl
          simp at hl
        have hname : (heuristic_extract text).account_name = c := by
          simp [heuristic_extract, pyOrStr, hg, hc]
        right
        rw [hname]
        obtain ⟨h4, h40, hfil, hsuf⟩ := looks_props hl
        exact ⟨hcand, h4, h40, hfil, hsuf⟩
  · intro c hcand hl
    have ht := accountGated_of_fail hcand hl
    constructor
    · show pyOrStr (accountGated text) "Unknown" = "Unknown"
      exact pyOrStr_untruthy ht
    · show companyQ ∈ openQuestionsOf text
      exact companyQ_mem ht

/-- Witness for C1 at the concrete input `"客户：张三"`: the candidate `"张三"`
(length 2) fails the guardrail, so the record falls back to `"Unknown"` and asks
for the company name. -/
theorem c1_account_guardrail_witness :
    accountCandidate "客户：张三" = some "张三" ∧
      looks_like_company_name "张三" = false ∧
      (heuristic_extract "客户：张三").account_name = "Unknown" ∧
      companyQ ∈ (heuristic_extract "客户：张三").open_questions :=
  ⟨rfl, rfl,
    ((c1_account_guardrail "客户：张三").2 "张三" rfl rfl).1,
    ((c1_account_guardrail "客户：张三").2 "张三" rfl rfl).2⟩

/-- Claim C2, counterexample: on the input `"x"` no pain-point keyword occurs,
yet `pain_points` is the placeholder list `["Unclear pain points"]` (and
likewise `must_haves` is `["Unclear requirements"]`), not the empty ordered
set the claim requires. -/
theorem c2_counterexample :
    pain_kw.filter (fun kw => ciSub kw.data "x".data) = [] ∧
      must_kw.filter (fun kw => ciSub kw.data "x".data) = [] ∧
      (heuristic_extract "x").pain_points = ["Unclear pain points"] ∧
      (heuristic_extract "x").must_haves = ["Unclear requirements"] ∧
      (heuristic_extract "x").pain_points ≠
        pain_kw.filter (fun kw => ciSub kw.data "x".data) := by
  refine ⟨rfl, rfl, rfl, rfl, ?_⟩
  decide

/-- Claim C2 (amended): for every input text, each of `pain_points`,
`must_haves` and `nice_to_haves` equals the subsequence of its keyword
vocabulary consisting of the keywords that occur (case-insensitively) anywhere
in the text, deduplicated with vocabulary order preserved, whenever at least
one such keyword occurs; when no keyword of a vocabulary occurs,
`nice_to_haves` is the empty ordered set but `pain_points` is the placeholder
`["Unclear pain points"]` and `must_haves` the placeholder
`["Unclear requirements"]`. -/
theorem c2_keyword_buckets (text : String) :
    ((kwFound pain_kw text ≠ [] →
        (heuristic_extract text).pain_points =
          pain_kw.filter (fun kw => ciSub kw.data text.data)) ∧
      (kwFound pain_kw text = [] →
        (heuristic_extract text).pain_points = ["Unclear pain points"])) ∧
    ((kwFound must_kw text ≠ [] →
        (heuristic_extract text).must_haves =
          must_kw.filter (fun kw => ciSub kw.data text.data)) ∧
      (kwFound must_kw text = [] →
        (heuristic_extract text).must_haves = ["Unclear requirements"])) ∧
    (heuristic_extract text).nice_to_haves =
      nice_kw.filter (fun kw => ciSub kw.data text.data) := by
  have hdedup : ∀ vocab : List String, vocab.Nodup →
      pyDedup (kwFound vocab text) = kwFound vocab text := by
    intro vocab hv
    exact pyDedup_eq_self (hv.filter _)
  have hpain := hdedup pain_kw (by decide)
  have hmust := hdedup must_kw (by decide)
  have hnice := hdedup nice_kw (by decide)
  refine ⟨⟨?_, ?_⟩, ⟨?_, ?_⟩, ?_⟩
  · intro hne
    show pyOrList (pyDedup (kwFound pain_kw text)) ["Unclear pain points"] = _
    rw [hpain, pyOrList, if_neg hne]
    rfl
  · intro he
    show pyOrList (pyDedup (kwFound pain_kw text)) ["Unclear pain points"] = _
    rw [hpain, pyOrList, if_pos he]
  · intro hne
    show pyOrList (pyDedup (kwFound must_kw text)) ["Unclear requirements"] = _
    rw [hmust, pyOrList, if_neg hne]
    rfl
  · intro he
    show pyOrList (pyDedup (kwFound must_kw text)) ["Unclear requirements"] = _
    rw [hmust, pyOrList, if_pos he]
  · show pyOrList (pyDedup (kwFound nice_kw text)) [] = _
    rw [hnice, pyOrList_nil_default]
    rfl

/-- Witness for C2 (amended) at the concrete inputs `"手动同步"` (one pain-point
keyword and one nice-to-have keyword occur, no must-have keyword) and `"CRM"`
(one must-have keyword occurs). -/
theorem c2_keyword_buckets_witness :
    (heuristic_extract "手动同步").pain_points = ["手动"] ∧
      (heuristic_extract "手动同步").must_haves = ["Unclear requirements"] ∧
      (heuristic_extract "手动同步").nice_to_haves = ["同步"] ∧
      (heuristic_extract "CRM").must_haves = ["CRM"] := by
  refine ⟨?_, ?_, ?_, ?_⟩
  · rw [(c2_keyword_buckets "手动同步").1.1 (by decide)]
    decide
  · exact (c2_keyword_buckets "手动同步").2.1.2 (by decide)
  · rw [(c2_keyword_buckets "手动同步").2.2]
    decide
  · rw [(c2_keyword_buckets "CRM").2.1.1 (by decide)]
    decide

/-- Claim C7, counterexample: on the input `"总监"` the explicit-role scan finds
nothing and the leadership scan finds the leadership term `"总监"`, yet the raw
term `"总监"` remains in `stakeholders` and the normalized marker is never
added, because the replacement only applies to terms matching the narrower
`leadership_marker` pattern (`领导|管理层|management`). -/
theorem c7_counterexample :
    kwFound explicitRoles "总监" = [] ∧
      kwFound leadershipRoles "总监" = ["总监"] ∧
      "总监" ∈ leadershipRoles ∧
      (heuristic_extract "总监").stakeholders = ["总监"] ∧
      reportingMarker ∉ (heuristic_extract "总监").stakeholders := by
  refine ⟨rfl, rfl, by decide, rfl, ?_⟩
  decide

/-- Claim C7 (amended): for every input text in which the explicit-role scan
finds no stakeholder and the leadership scan finds at least one term matching
the leadership-marker pattern (`领导`, `管理层` or `management`,
case-insensitively), every marker-matching term is removed from the raw list
and replaced by the single normalized marker appended exactly once, so no
marker-matching raw term remains; leadership terms not matching the marker
pattern (such as `总监`, `manager`, `director`) remain in the list. -/
theorem c7_leadership_normalization (text : String)
    (h1 : kwFound explicitRoles text = [])
    (h2 : (kwFound leadershipRoles text).any markerHit = true) :
    reportingMarker ∈ (heuristic_extract text).stakeholders ∧
      (heuristic_extract text).stakeholders.count reportingMarker = 1 ∧
      (∀ s ∈ (heuristic_extract text).stakeholders, markerHit s = true →
        s = reportingMarker) ∧
      (∀ s ∈ kwFound leadershipRoles text, markerHit s = false →
        s ∈ (heuristic_extract text).stakeholders) := by
  have hraw : stakeholdersRaw text = kwFound leadershipRoles text := by
    rw [stakeholdersRaw, h1]
    simp
  have hst : stakeholdersOf text =
      (kwFound leadershipRoles text).filter (fun s => !markerHit s) ++
        [reportingMarker] := by
    rw [stakeholdersOf, hraw, if_pos h2]
  have hmem : reportingMarker ∈ pyDedup (stakeholdersOf text) := by
    rw [pyDedup_mem, hst]
    exact List.mem_append_right _ (List.mem_singleton.mpr rfl)
  have hne : pyDedup (stakeholdersOf text) ≠ [] := by
    intro hnil
    rw [hnil] at hmem
    exact List.not_mem_nil _ hmem
  have hfield : (heuristic_extract text).stakeholders = pyDedup (stakeholdersOf text) := by
    show pyOrList (pyDedup (stakeholdersOf text)) ["Unknown"] = _
    rw [pyOrList, if_neg hne]
  refine ⟨?_, ?_, ?_, ?_⟩
  · rw [hfield]
    exact hmem
  · rw [hfield]
    exact List.count_eq_one_of_mem (pyDedup_nodup _) hmem
  · intro s hs hm
    rw [hfield, pyDedup_mem, hst] at hs
    rcases List.mem_append.mp hs with hsf | hsm
    · have := List.of_mem_filter hsf
      simp [hm] at this
    · exact List.mem_singleton.mp hsm
  · intro s hs hm
    rw [hfield, pyDedup_mem, hst]
    refine List.mem_append_left _ ?_
    exact List.mem_filter.mpr ⟨hs, by simp [hm]⟩

/-- Witness for C7 (amended) at the concrete input `"管理层"`. -/
theorem c7_leadership_normalization_witness :
    kwFound explicitRoles "管理层" = [] ∧
      (kwFound leadershipRoles "管理层").any markerHit = true ∧
      reportingMarker ∈ (heuristic_extract "管理层").stakeholders ∧
      (heuristic_extract "管理层").stakeholders.count reportingMarker = 1 :=
  ⟨rfl, rfl,
    (c7_leadership_normalization "管理层" rfl rfl).1,
    (c7_leadership_normalization "管理层" rfl rfl).2.1⟩

/-- Claim C8: any text with no explicit `B2B`/`B2C` token (the business-model
pattern search fails) that contains both a leadership marker and an
enterprise-process marker gets `business_model = "Likely B2B (inferred)"`, and
its `open_questions` contain the CRM-identity question. -/
theorem c8_b2b_inference (text : String) (h1 : bmRaw text = none)
    (h2 : leadershipHit text = true) (h3 : enterpriseHit text = true) :
    (heuristic_extract text).business_model = "Likely B2B (inferred)" ∧
      crmQ ∈ (heuristic_extract text).open_questions := by
  have hu : bmUnknown text = true := by
    simp [bmUnknown, bmExplicit, pyOrStr, h1]
  have hinf : bmInferred text = true := by
    simp [bmInferred, hu, h2, h3]
  constructor
  · show businessModelOf text = _
    rw [businessModelOf, if_pos hinf]
  · show crmQ ∈ openQuestionsOf text
    have hq : crmQuestionNeeded text = true := by
      simp [crmQuestionNeeded, hinf]
    rw [openQuestionsOf, hq]
    simp

/-- Witness for C8 at the concrete input `"领导要看流程"` (a leadership marker and
an enterprise-process marker, no `B2B`/`B2C` token and no literal `CRM`). -/
theorem c8_b2b_inference_witness :
    bmRaw "领导要看流程" = none ∧
      ciSub "CRM".data "领导要看流程".data = false ∧
      (heuristic_extract "领导要看流程").business_model = "Likely B2B (inferred)" ∧
      crmQ ∈ (heuristic_extract "领导要看流程").open_questions :=
  ⟨rfl, rfl,
    (c8_b2b_inference "领导要看流程" rfl rfl rfl).1,
    (c8_b2b_inference "领导要看流程" rfl rfl rfl).2⟩

/-- Claim C10: when the business model is only inferred (no explicit
`B2B`/`B2C` token was found and the record carries
`"Likely B2B (inferred)"`), the open questions still contain the
`B2B or B2C?` question in addition to the CRM-identity question. -/
theorem c10_inference_keeps_bm_question (text : String) (h1 : bmRaw text = none)
    (h2 : (heuristic_extract text).business_model = "Likely B2B (inferred)") :
    bmQ ∈ (heuristic_extract text).open_questions ∧
      crmQ ∈ (heuristic_extract text).open_questions := by
  have hu : bmUnknown text = true := by
    simp [bmUnknown, bmExplicit, pyOrStr, h1]
  have he : bmExplicit text = "Unknown" := by
    simpa [bmUnknown] using hu
  have hinf : bmInferred text = true := by
    rcases Bool.eq_false_or_eq_true (bmInferred text) with ht | hf
    · exact ht
    · exfalso
      have hbm : (heuristic_extract text).business_model = bmExplicit text := by
        show businessModelOf text = _
        rw [businessModelOf, if_neg (by simp [hf])]
      rw [hbm, he] at h2
      exact absurd h2 (by decide)
  have hq : crmQuestionNeeded text = true := by
    simp [crmQuestionNeeded, hinf]
  constructor
  · show bmQ ∈ openQuestionsOf text
    rw [openQuestionsOf, hu, hq]
    simp
  · show crmQ ∈ openQuestionsOf text
    rw [openQuestionsOf, hu, hq]
    simp

/-- Witness for C10 at the concrete input `"管理层要复盘"`. -/
theorem c10_inference_keeps_bm_question_witness :
    bmRaw "管理层要复盘" = none ∧
      (heuristic_extract "管理层要复盘").business_model = "Likely B2B (inferred)" ∧
      bmQ ∈ (heuristic_extract "管理层要复盘").open_questions ∧
      crmQ ∈ (heuristic_extract "管理层要复盘").open_questions :=
  ⟨rfl, rfl,
    (c10_inference_keeps_bm_question "管理层要复盘" rfl rfl).1,
    (c10_inference_keeps_bm_question "管理层要复盘" rfl rfl).2⟩

theorem keysOf_append (a b : List (String × PyVal)) :
    keysOf (a ++ b) = keysOf a ++ keysOf b := by
  simp [keysOf]

theorem setdefaults_chain {m : List (String × PyVal)} (b : Bool)
    (h1 : "source" ∉ keysOf m) (h2 : "pii_redacted" ∉ keysOf m)
    (h3 : "raw_text_excerpt" ∉ keysOf m) (h4 : "text_hash" ∉ keysOf m) :
    setdefault
        (setdefault
          (setdefault (setdefault m "source" (.pstr "Unknown"))
            "pii_redacted" (.pbool b))
          "raw_text_excerpt" (.pstr ""))
        "text_hash" (.pstr "") =
      m ++ metadataDefaults b := by
  have e1 : setdefault m "source" (.pstr "Unknown") =
      m ++ [("source", .pstr "Unknown")] := setdefault_fresh h1
  have h2' : "pii_redacted" ∉ keysOf (m ++ [("source", PyVal.pstr "Unknown")]) := by
    rw [keysOf_append]
    intro hm
    rcases List.mem_append.mp hm with hA | hB
    · exact h2 hA
    · exact absurd hB (by decide)
  have e2 : setdefault (m ++ [("source", PyVal.pstr "Unknown")])
      "pii_redacted" (.pbool b) =
      m ++ [("source", PyVal.pstr "Unknown")] ++ [("pii_redacted", .pbool b)] :=
    setdefault_fresh h2'
  have h3' : "raw_text_excerpt" ∉ keysOf (m ++ [("source", PyVal.pstr "Unknown")] ++
      [("pii_redacted", PyVal.pbool b)]) := by
    rw [keysOf_append, keysOf_append]
    intro hm
    rcases List.mem_append.mp hm with hAB | hC
    · rcases List.mem_append.mp hAB with hA | hB
      · exact h3 hA
      · exact absurd hB (by decide)
    · simp [keysOf] at hC
  have e3 : setdefault (m ++ [("source", PyVal.pstr "Unknown")] ++
        [("pii_redacted", PyVal.pbool b)]) "raw_text_excerpt" (.pstr "") =
      m ++ [("source", PyVal.pstr "Unknown")] ++ [("pii_redacted", PyVal.pbool b)] ++
        [("raw_text_excerpt", .pstr "")] :=
    setdefault_fresh h3'
  have h4' : "text_hash" ∉ keysOf (m ++ [("source", PyVal.pstr "Unknown")] ++
      [("pii_redacted", PyVal.pbool b)] ++ [("raw_text_excerpt", PyVal.pstr "")]) := by
    rw [keysOf_append, keysOf_append, keysOf_append]
    intro hm
    rcases List.mem_append.mp hm with hABC | hD
    · rcases List.mem_append.mp hABC with hAB | hC
      · rcases List.mem_append.mp hAB with hA | hB
        · exact h4 hA
        · exact absurd hB (by decide)
      · simp [keysOf] at hC
    · exact absurd hD (by decide)
  have e4 : setdefault (m ++ [("source", PyVal.pstr "Unknown")] ++
        [("pii_redacted", PyVal.pbool b)] ++ [("raw_text_excerpt", PyVal.pstr "")])
        "text_hash" (.pstr "") =
      m ++ [("source", PyVal.pstr "Unknown")] ++ [("pii_redacted", PyVal.pbool b)] ++
        [("raw_text_excerpt", PyVal.pstr "")] ++ [("text_hash", .pstr "")] :=
    setdefault_fresh h4'
  rw [e1, e2, e3, e4, metadataDefaults]
  simp [List.append_assoc]

theorem llmDataOf_not_dict {parsed : Option PyVal}
    (h : ∀ d, parsed ≠ some (.pdict d)) : llmDataOf parsed = [] := by
  cases parsed with
  | none => rfl
  | some v =>
    cases v with
    | pnone => rfl
    | pstr s => rfl
    | pbool bb => rfl
    | pint n => rfl
    | plist xs => rfl
    | pdict d => exact absurd rfl (h d)

/-- Claim C3: `extract_fields` is total over every provider outcome - a payload
that does not parse as a key-value mapping contributes nothing, so the merged
result is the heuristic record plus the metadata defaults; and a key of a
successfully parsed payload overwrites the heuristic value exactly when its
value is not an empty sentinel (`None`, `""`, `[]`, `{}`). -/
theorem c3_external_merge (text : String) (parsed : Option PyVal) (b : Bool) :
    ((∀ d, parsed ≠ some (.pdict d)) →
      extract_fields text parsed b =
        recordToAssoc (heuristic_extract text) ++ metadataDefaults b) ∧
    (∀ d, parsed = some (.pdict d) → (keysOf d).Nodup →
      ∀ k v, d.lookup k = some v →
        k ∈ keysOf (recordToAssoc (heuristic_extract text)) →
        ((isEmptySentinel v = false →
            (extract_fields text parsed b).lookup k = some v) ∧
          (isEmptySentinel v = true →
            (extract_fields text parsed b).lookup k =
              (recordToAssoc (heuristic_extract text)).lookup k))) := by
  constructor
  · intro hnd
    rw [extract_fields, llmDataOf_not_dict hnd]
    simp only [List.filter_nil]
    rw [pyUpdate_nil]
    exact setdefaults_chain b
      (by rw [keysOf_recordToAssoc]; decide)
      (by rw [keysOf_recordToAssoc]; decide)
      (by rw [keysOf_recordToAssoc]; decide)
      (by rw [keysOf_recordToAssoc]; decide)
  · intro d hd hnodup k v hkv hkheur
    have hky : k ∈ keysOf (pyUpdate (recordToAssoc (heuristic_extract text))
        ((llmDataOf parsed).filter (fun kv => !isEmptySentinel kv.2))) :=
      mem_keys_pyUpdate hkheur
    constructor
    · intro hsent
      have hfl : ((llmDataOf parsed).filter
          (fun kv => !isEmptySentinel kv.2)).lookup k = some v := by
        rw [hd]
        exact lookup_filter_some hnodup hkv (by simp [hsent])
      rw [extract_fields]
      rw [lookup_setdefault_of_mem
        (mem_keys_setdefault (mem_keys_setdefault (mem_keys_setdefault hky)))]
      rw [lookup_setdefault_of_mem (mem_keys_setdefault (mem_keys_setdefault hky))]
      rw [lookup_setdefault_of_mem (mem_keys_setdefault hky)]
      rw [lookup_setdefault_of_mem hky]
      rw [lookup_pyUpdate hkheur, hfl]
    · intro hsent
      have hfl : ((llmDataOf parsed).filter
          (fun kv => !isEmptySentinel kv.2)).lookup k = none := by
        rw [hd]
        exact lookup_filter_none hnodup hkv (by simp [hsent])
      rw [extract_fields]
      rw [lookup_setdefault_of_mem
        (mem_keys_setdefault (mem_keys_setdefault (mem_keys_setdefault hky)))]
      rw [lookup_setdefault_of_mem (mem_keys_setdefault (mem_keys_setdefault hky))]
      rw [lookup_setdefault_of_mem (mem_keys_setdefault hky)]
      rw [lookup_setdefault_of_mem hky]
      rw [lookup_pyUpdate hkheur, hfl]

/-- Witness for C3 at the concrete inputs: an unparseable payload (`none`)
contributes nothing; in the payload `{budget: "5-10w", industry: ""}`, the
non-empty `budget` overwrites and the empty-string `industry` does not. -/
theorem c3_external_merge_witness :
    extract_fields "x" none true =
        recordToAssoc (heuristic_extract "x") ++ metadataDefaults true ∧
      (extract_fields "x"
          (some (.pdict [("budget", .pstr "5-10w"), ("industry", .pstr "")]))
          true).lookup "budget" = some (.pstr "5-10w") ∧
      (extract_fields "x"
          (some (.pdict [("budget", .pstr "5-10w"), ("industry", .pstr "")]))
          true).lookup "industry" =
        (recordToAssoc (heuristic_extract "x")).lookup "industry" := by
  refine ⟨?_, ?_, ?_⟩
  · exact (c3_external_merge "x" none true).1 (fun d h => Option.noConfusion h)
  · exact ((c3_external_merge "x"
      (some (.pdict [("budget", .pstr "5-10w"), ("industry", .pstr "")])) true).2
      [("budget", .pstr "5-10w"), ("industry", .pstr "")] rfl (by decide)
      "budget" (.pstr "5-10w") rfl (by decide)).1 rfl
  · exact ((c3_external_merge "x"
      (some (.pdict [("budget", .pstr "5-10w"), ("industry", .pstr "")])) true).2
      [("budget", .pstr "5-10w"), ("industry", .pstr "")] rfl (by decide)
      "industry" (.pstr "") rfl (by decide)).2 rfl

/-- Claim C4: the stage is the name of the first rule of the configured ordered
`stage_rules` list whose two thresholds are satisfied by the computed scores;
later rules never affect the result, and with no satisfied rule the stage is
the fixed default `"Early (Needs discovery)"`. -/
theorem c4_stage_first_match (fields : LeadRecord) (cfg : Config) :
    ((score_and_stage fields cfg).stage =
      match cfg.stage_rules.find?
          (satRule (score_and_stage fields cfg).fit_score
            (score_and_stage fields cfg).intent_score) with
      | some ru => ru.name
      | none => "Early (Needs discovery)") ∧
    (∀ pre ru post post',
      (∀ q ∈ pre, satRule (score_and_stage fields cfg).fit_score
          (score_and_stage fields cfg).intent_score q = false) →
      satRule (score_and_stage fields cfg).fit_score
          (score_and_stage fields cfg).intent_score ru = true →
      (score_and_stage fields
          { scoring := cfg.scoring, stage_rules := pre ++ ru :: post }).stage = ru.name ∧
        (score_and_stage fields
            { scoring := cfg.scoring, stage_rules := pre ++ ru :: post }).stage =
          (score_and_stage fields
              { scoring := cfg.scoring, stage_rules := pre ++ ru :: post' }).stage) := by
  constructor
  · exact resolveStage_eq_find _ _ cfg.stage_rules
  · intro pre ru post post' hpre hru
    constructor
    · exact resolveStage_first_match _ _ pre ru post hpre hru
    · exact (resolveStage_first_match _ _ pre ru post hpre hru).trans
        (resolveStage_first_match _ _ pre ru post' hpre hru).symm

/-- Witness for C4: with overlapping rules, the unsatisfied first rule is
skipped and the first satisfied rule wins, whatever follows it. -/
theorem c4_stage_first_match_witness :
    (score_and_stage
        ⟨"Unknown", "Unknown", "Unknown", "x", [], [], [], "Unknown", "Unknown", [], []⟩
        { scoring := defaultScoring,
          stage_rules := [⟨"SQL-Ready", 200, 200⟩, ⟨"MQL-Qualified", 0, 0⟩] }).stage =
      "MQL-Qualified" ∧
    (score_and_stage
        ⟨"Unknown", "Unknown", "Unknown", "x", [], [], [], "Unknown", "Unknown", [], []⟩
        { scoring := defaultScoring,
          stage_rules := [⟨"SQL-Ready", 200, 200⟩, ⟨"MQL-Qualified", 0, 0⟩,
            ⟨"Catch-all", 0, 0⟩] }).stage = "MQL-Qualified" := by
  constructor
  · exact ((c4_stage_first_match
      ⟨"Unknown", "Unknown", "Unknown", "x", [], [], [], "Unknown", "Unknown", [], []⟩
      { scoring := defaultScoring,
        stage_rules := [⟨"SQL-Ready", 200, 200⟩, ⟨"MQL-Qualified", 0, 0⟩] }).2
      [⟨"SQL-Ready", 200, 200⟩] ⟨"MQL-Qualified", 0, 0⟩ [] []
      (by decide) (by decide)).1
  · exact ((c4_stage_first_match
      ⟨"Unknown", "Unknown", "Unknown", "x", [], [], [], "Unknown", "Unknown", [], []⟩
      { scoring := defaultScoring,
        stage_rules := [⟨"SQL-Ready", 200, 200⟩, ⟨"MQL-Qualified", 0, 0⟩] }).2
      [⟨"SQL-Ready", 200, 200⟩] ⟨"MQL-Qualified", 0, 0⟩ [⟨"Catch-all", 0, 0⟩] []
      (by decide) (by decide)).1

theorem clamp01_nonneg (x : Int) : 0 ≤ clamp01 x := le_max_left 0 _

theorem clamp01_le (x : Int) : clamp01 x ≤ 100 :=
  max_le (by norm_num) (min_le_left _ _)

/-- Claim C5: for every record and configuration of base values and increment
weights (any integers), `fit_score` and `intent_score` lie in `[0, 100]`;
each equals the single clamp of the base plus the sum of the applicable
increments, so permuting the increments never changes the result. -/
theorem c5_score_clamping (fields : LeadRecord) (cfg : Config) :
    (0 ≤ (score_and_stage fields cfg).fit_score ∧
      (score_and_stage fields cfg).fit_score ≤ 100 ∧
      0 ≤ (score_and_stage fields cfg).intent_score ∧
      (score_and_stage fields cfg).intent_score ≤ 100) ∧
    ((score_and_stage fields cfg).fit_score =
        clamp01 (cfg.scoring.base_fit + (fitIncList fields cfg.scoring).sum) ∧
      (score_and_stage fields cfg).intent_score =
        clamp01 (cfg.scoring.base_intent + (intentIncList fields cfg.scoring).sum)) ∧
    ((∀ l : List Int, l.Perm (fitIncList fields cfg.scoring) →
        clamp01 (cfg.scoring.base_fit + l.sum) = (score_and_stage fields cfg).fit_score) ∧
      (∀ l : List Int, l.Perm (intentIncList fields cfg.scoring) →
        clamp01 (cfg.scoring.base_intent + l.sum) =
          (score_and_stage fields cfg).intent_score)) := by
  have hfit : (score_and_stage fields cfg).fit_score =
      clamp01 (cfg.scoring.base_fit + (fitIncList fields cfg.scoring).sum) := by
    show clamp01 _ = clamp01 _
    rw [fitIncList]
    simp only [List.sum_cons, List.sum_nil]
    congr 1
    ring
  have hintent : (score_and_stage fields cfg).intent_score =
      clamp01 (cfg.scoring.base_intent + (intentIncList fields cfg.scoring).sum) := by
    show clamp01 _ = clamp01 _
    rw [intentIncList]
    simp only [List.sum_cons, List.sum_nil]
    congr 1
    ring
  refine ⟨⟨?_, ?_, ?_, ?_⟩, ⟨hfit, hintent⟩, ?_, ?_⟩
  · rw [hfit]; exact clamp01_nonneg _
  · rw [hfit]; exact clamp01_le _
  · rw [hintent]; exact clamp01_nonneg _
  · rw [hintent]; exact clamp01_le _
  · intro l hl
    rw [hfit, List.Perm.sum_eq hl]
  · intro l hl
    rw [hintent, List.Perm.sum_eq hl]

/-- Witness for C5: with a huge `fit_industry_known` weight the fit score still
clamps to 100, and summing the (trivially permuted) increment list reproduces
it. -/
theorem c5_score_clamping_witness :
    0 ≤ (score_and_stage
        ⟨"Unknown", "SaaS", "Unknown", "x", [], [], [], "Unknown", "Unknown", [], []⟩
        { scoring := ⟨50, 50, 1000000, 10, 10, 15, 10, 10⟩,
          stage_rules := [] }).fit_score ∧
      (score_and_stage
        ⟨"Unknown", "SaaS", "Unknown", "x", [], [], [], "Unknown", "Unknown", [], []⟩
        { scoring := ⟨50, 50, 1000000, 10, 10, 15, 10, 10⟩,
          stage_rules := [] }).fit_score ≤ 100 ∧
      clamp01 (50 + (fitIncList
          ⟨"Unknown", "SaaS", "Unknown", "x", [], [], [], "Unknown", "Unknown", [], []⟩
          ⟨50, 50, 1000000, 10, 10, 15, 10, 10⟩).sum) =
        (score_and_stage
          ⟨"Unknown", "SaaS", "Unknown", "x", [], [], [], "Unknown", "Unknown", [], []⟩
          { scoring := ⟨50, 50, 1000000, 10, 10, 15, 10, 10⟩,
            stage_rules := [] }).fit_score ∧
      (score_and_stage
        ⟨"Unknown", "SaaS", "Unknown", "x", [], [], [], "Unknown", "Unknown", [], []⟩
        { scoring := ⟨50, 50, 1000000, 10, 10, 15, 10, 10⟩,
          stage_rules := [] }).fit_score = 100 := by
  refine ⟨(c5_score_clamping _ _).1.1, (c5_score_clamping _ _).1.2.1,
    (c5_score_clamping
      ⟨"Unknown", "SaaS", "Unknown", "x", [], [], [], "Unknown", "Unknown", [], []⟩
      { scoring := ⟨50, 50, 1000000, 10, 10, 15, 10, 10⟩,
        stage_rules := [] }).2.2.1 _ (List.Perm.refl _), by decide⟩

/-- Claim C6: the three baseline actions always appear in their fixed relative
order, and when the CRM trigger, the invoice trigger and an `"SQL"`-prefixed
stage all fire, the action list is exactly the POC action, the CRM action, the
three baseline actions, then the invoice action. -/
theorem c6_actions_order (fields : LeadRecord) (scores : ScoreResult) :
    baselineActions.Sublist (generate_actions fields scores) ∧
    ((crmMentionedF fields = true ∨ fields.business_model = "Likely B2B (inferred)") →
      invoiceMentionedF fields = true →
      startsWithS scores.stage "SQL" = true →
      generate_actions fields scores =
        [pocAction, crmAction] ++ baselineActions ++ [invoiceAction]) := by
  constructor
  · rw [generate_actions]
    split
    · split
      · split
        · exact ((((List.Sublist.refl baselineActions).trans
            (List.sublist_append_left _ _)).cons _).cons _)
        · exact (((List.Sublist.refl baselineActions).trans
            (List.sublist_append_left _ _)).cons _)
      · split
        · exact ((List.Sublist.refl baselineActions).cons _).cons _
        · exact (List.Sublist.refl baselineActions).cons _
    · split
      · split
        · exact (((List.Sublist.refl baselineActions).trans
            (List.sublist_append_left _ _)).cons _)
        · exact ((List.Sublist.refl baselineActions).trans
            (List.sublist_append_left _ _))
      · split
        · exact (List.Sublist.refl baselineActions).cons _
        · exact List.Sublist.refl baselineActions
  · intro hcrm hinv hsql
    have hcrmb : (crmMentionedF fields || decide
        (fields.business_model = "Likely B2B (inferred)")) = true := by
      rcases hcrm with h | h
      · simp [h]
      · simp [h]
    rw [generate_actions]
    rw [if_pos hsql, if_pos hinv, if_pos hcrmb]
    simp

/-- Witness for C6: all three triggers fire on a record mentioning CRM and
invoices with an SQL stage. -/
theorem c6_actions_order_witness :
    generate_actions
        ⟨"Unknown", "Unknown", "Unknown", "x", [], ["CRM", "发票"], [], "Unknown",
          "Unknown", [], []⟩
        ⟨80, 80, "SQL (Ready for proposal)", "Hot"⟩ =
      [pocAction, crmAction] ++ baselineActions ++ [invoiceAction] :=
  (c6_actions_order
      ⟨"Unknown", "Unknown", "Unknown", "x", [], ["CRM", "发票"], [], "Unknown",
        "Unknown", [], []⟩
      ⟨80, 80, "SQL (Ready for proposal)", "Hot"⟩).2
    (Or.inl (by decide)) (by decide) (by decide)

theorem ratingOf_cases (s : String) :
    (ratingOf s = "Hot" ↔ startsWithS s "SQL" = true) ∧
      (ratingOf s = "Warm" ↔
        (startsWithS s "SQL" = false ∧ startsWithS s "MQL" = true)) ∧
      (ratingOf s = "Cold" ↔
        (startsWithS s "SQL" = false ∧ startsWithS s "MQL" = false)) := by
  rw [ratingOf]
  split_ifs with h1 h2
  · exact ⟨⟨fun _ => h1, fun _ => rfl⟩,
      ⟨fun h => absurd h (by decide), fun ⟨hf, _⟩ => absurd h1 (by simp [hf])⟩,
      ⟨fun h => absurd h (by decide), fun ⟨hf, _⟩ => absurd h1 (by simp [hf])⟩⟩
  · exact ⟨⟨fun h => absurd h (by decide), fun ht => absurd ht h1⟩,
      ⟨fun _ => ⟨by simpa using h1, h2⟩, fun _ => rfl⟩,
      ⟨fun h => absurd h (by decide), fun ⟨_, hm⟩ => absurd h2 (by simp [hm])⟩⟩
  · exact ⟨⟨fun h => absurd h (by decide), fun ht => absurd ht h1⟩,
      ⟨fun h => absurd h (by decide), fun ⟨_, hm⟩ => absurd hm h2⟩,
      ⟨fun _ => ⟨by simpa using h1, by simpa using h2⟩, fun _ => rfl⟩⟩

/-- Claim C9: the rating is `"Hot"` exactly when the resolved stage name starts
with `"SQL"`, `"Warm"` exactly when it does not start with `"SQL"` but starts
with `"MQL"`, and `"Cold"` otherwise; for a rule table using neither prefix the
rating is always `"Cold"`. -/
theorem c9_rating_convention (fields : LeadRecord) (cfg : Config) :
    (((score_and_stage fields cfg).rating = "Hot" ↔
        startsWithS (score_and_stage fields cfg).stage "SQL" = true) ∧
      ((score_and_stage fields cfg).rating = "Warm" ↔
        (startsWithS (score_and_stage fields cfg).stage "SQL" = false ∧
          startsWithS (score_and_stage fields cfg).stage "MQL" = true)) ∧
      ((score_and_stage fields cfg).rating = "Cold" ↔
        (startsWithS (score_and_stage fields cfg).stage "SQL" = false ∧
          startsWithS (score_and_stage fields cfg).stage "MQL" = false))) ∧
    ((∀ ru ∈ cfg.stage_rules, startsWithS ru.name "SQL" = false ∧
        startsWithS ru.name "MQL" = false) →
      (score_and_stage fields cfg).rating = "Cold") := by
  constructor
  · exact ratingOf_cases _
  · intro hall
    have hs : startsWithS (score_and_stage fields cfg).stage "SQL" = false ∧
        startsWithS (score_and_stage fields cfg).stage "MQL" = false := by
      rcases resolveStage_names (score_and_stage fields cfg).fit_score
          (score_and_stage fields cfg).intent_score cfg.stage_rules with hdef | ⟨ru, hru, he⟩
      · have hstage : (score_and_stage fields cfg).stage = "Early (Needs discovery)" := hdef
        rw [hstage]
        exact ⟨by decide, by decide⟩
      · have hstage : (score_and_stage fields cfg).stage = ru.name := he
        rw [hstage]
        exact hall ru hru
    exact (ratingOf_cases _).2.2.mpr hs

/-- Witness for C9: a custom rule table whose names use neither prefix always
rates `"Cold"`. -/
theorem c9_rating_convention_witness :
    (score_and_stage
        ⟨"Unknown", "Unknown", "Unknown", "x", [], [], [], "Unknown", "Unknown", [], []⟩
        { scoring := defaultScoring,
          stage_rules := [⟨"Stage A", 0, 0⟩, ⟨"Stage B", 60, 60⟩] }).rating = "Cold" :=
  (c9_rating_convention
      ⟨"Unknown", "Unknown", "Unknown", "x", [], [], [], "Unknown", "Unknown", [], []⟩
      { scoring := defaultScoring,
        stage_rules := [⟨"Stage A", 0, 0⟩, ⟨"Stage B", 60, 60⟩] }).2
    (by decide)

end SalesWorkflow
